import Mathlib

/-!
# Squirrel log-tailing pipeline: a shallow embedding

This file embeds the log-tailing pipeline of the Squirrel daemon
(`daemon/src/cli/watch.rs`, `daemon/src/watcher/history.rs`,
`daemon/src/watcher/file_watcher.rs`) in Lean 4 and proves properties of it.

The pipeline's leaf components (`LogParser`, `PositionStore`,
`SessionTracker` and the IPC client types) are referenced by the daemon
sources but their defining modules are not part of the source tree at hand;
where a definition below models such a missing component, its doc comment
says so explicitly and follows the specification's description of the
component. Everything else is translated directly from the Rust sources.

Rust strings and file contents are modelled as `List Char`; byte offsets
become list indices (`Nat`).
-/

namespace Squirrel

/-- The newline character, the line separator of the log format. -/
def nlChar : Char := Char.ofNat 10

/-- One parsed unit from a source log line (spec §3 `LogEntry`):
`timestamp`, `session_id`, `project_path`, and an opaque payload
(the role/kind information is part of the opaque body here, since no
claim distinguishes entry kinds). -/
structure LogEntry where
  timestamp : Nat
  sessionId : String
  projectPath : String
  payload : List Char
deriving DecidableEq, Repr

/-- Immutable snapshot of a finished session (spec §3 `CompletedSession`):
`session_id`, `project_id`, `project_root`, ordered `events`. -/
structure CompletedSession where
  session_id : String
  project_id : String
  project_root : String
  events : List LogEntry
deriving DecidableEq, Repr

/-! ## Log Reader (spec §4.2)

Modelled from the spec: the `LogParser` component (`parse_from_position`,
`parse_line`) is referenced by `watch.rs` and `history.rs` but its module is
missing from the source tree.  Per spec §4.2 the reader consumes raw bytes
from a start offset, splits on line boundaries, discards an incomplete
trailing line, and reports the new offset as the end of the last consumed
complete line. -/

/-- Modelled from the spec: split off the first complete (newline-terminated)
line of a byte sequence, returning the line without its terminator together
with the bytes after the terminator; `none` when no newline is present. -/
def takeLine : List Char → Option (List Char × List Char)
  | [] => none
  | c :: rest =>
    if c = nlChar then some ([], rest)
    else
      match takeLine rest with
      | some (l, r) => some (c :: l, r)
      | none => none

theorem takeLine_eq_none {l : List Char} : takeLine l = none ↔ nlChar ∉ l := by
  induction l with
  | nil => simp [takeLine]
  | cons c rest ih =>
    by_cases hc : c = nlChar
    · subst hc
      simp [takeLine]
    · simp only [takeLine, if_neg hc, List.mem_cons]
      cases h : takeLine rest with
      | none =>
        simp only [h, true_iff]
        exact fun hmem => hmem.elim (fun he => hc he.symm) (fun hm => (ih.mp h) hm)
      | some p =>
        simp only [h]
        constructor
        · intro hcon; cases hcon
        · intro hno
          exact absurd (fun hm => hno (Or.inr hm)) (by simp [← ih, h])

theorem takeLine_eq_some {l line rest : List Char}
    (h : takeLine l = some (line, rest)) :
    l = line ++ nlChar :: rest ∧ nlChar ∉ line := by
  induction l generalizing line rest with
  | nil => simp [takeLine] at h
  | cons c t ih =>
    simp only [takeLine] at h
    split at h
    · rename_i hc
      injection h with h'
      injection h' with ha hb
      subst ha; subst hb; subst hc
      simp
    · rename_i hc
      cases ht : takeLine t with
      | none => simp only [ht] at h; cases h
      | some p =>
        obtain ⟨l', r'⟩ := p
        simp only [ht] at h
        injection h with h'
        injection h' with ha hb
        subst hb
        obtain ⟨he, hn⟩ := ih ht
        constructor
        · rw [← ha, he]; simp
        · rw [← ha]
          intro hmem
          rcases List.mem_cons.mp hmem with h' | h'
          · exact hc h'.symm
          · exact hn h'

theorem takeLine_rest_length {l line rest : List Char}
    (h : takeLine l = some (line, rest)) : rest.length < l.length := by
  obtain ⟨he, _⟩ := takeLine_eq_some h
  subst he
  simp only [List.length_append, List.length_cons]
  omega

/-- Modelled from the spec: consume as many complete lines as possible from
the front of a byte sequence, returning the lines (without terminators) and
the number of bytes consumed (through the last newline).  Structured with an
explicit fuel argument so the definition computes by kernel reduction; the
fuel is immaterial once it is at least the sequence length. -/
def readLinesFuel : Nat → List Char → List (List Char) × Nat
  | 0, _ => ([], 0)
  | fuel + 1, l =>
    match takeLine l with
    | none => ([], 0)
    | some (line, rest) =>
      let p := readLinesFuel fuel rest
      (line :: p.1, line.length + 1 + p.2)

/-- Modelled from the spec: all complete lines at the front of a byte
sequence, together with the count of bytes consumed. -/
def readLines (l : List Char) : List (List Char) × Nat :=
  readLinesFuel l.length l

theorem readLinesFuel_congr :
    ∀ (f₁ f₂ : Nat) (l : List Char), l.length ≤ f₁ → l.length ≤ f₂ →
      readLinesFuel f₁ l = readLinesFuel f₂ l := by
  intro f₁
  induction f₁ with
  | zero =>
    intro f₂ l h₁ _
    have : l = [] := List.length_eq_zero.mp (Nat.le_zero.mp h₁)
    subst this
    cases f₂ with
    | zero => rfl
    | succ n => simp [readLinesFuel, takeLine]
  | succ n ih =>
    intro f₂ l h₁ h₂
    cases f₂ with
    | zero =>
      have : l = [] := List.length_eq_zero.mp (Nat.le_zero.mp h₂)
      subst this
      simp [readLinesFuel, takeLine]
    | succ m =>
      simp only [readLinesFuel]
      cases h : takeLine l with
      | none => rfl
      | some p =>
        obtain ⟨line, rest⟩ := p
        have hlen := takeLine_rest_length h
        have hr₁ : rest.length ≤ n := by omega
        have hr₂ : rest.length ≤ m := by omega
        simp only [ih m rest hr₁ hr₂]

theorem readLines_eq_fuel {l : List Char} {f : Nat} (h : l.length ≤ f) :
    readLines l = readLinesFuel f l :=
  readLinesFuel_congr l.length f l (Nat.le_refl _) h

/-- Concatenation of lines with a newline terminator added back to each:
the exact byte region the reader consumed. -/
def joinLines (ls : List (List Char)) : List Char :=
  (ls.map (fun s => s ++ [nlChar])).flatten

theorem readLines_spec :
    ∀ (l : List Char),
      (readLines l).2 ≤ l.length ∧
      l.take (readLines l).2 = joinLines (readLines l).1 ∧
      nlChar ∉ l.drop (readLines l).2 ∧
      ∀ s ∈ (readLines l).1, nlChar ∉ s := by
  have main : ∀ (f : Nat) (l : List Char), l.length ≤ f →
      (readLinesFuel f l).2 ≤ l.length ∧
      l.take (readLinesFuel f l).2 = joinLines (readLinesFuel f l).1 ∧
      nlChar ∉ l.drop (readLinesFuel f l).2 ∧
      ∀ s ∈ (readLinesFuel f l).1, nlChar ∉ s := by
    intro f
    induction f with
    | zero =>
      intro l h
      have : l = [] := List.length_eq_zero.mp (Nat.le_zero.mp h)
      subst this
      simp [readLinesFuel, joinLines]
    | succ n ih =>
      intro l h
      simp only [readLinesFuel]
      cases ht : takeLine l with
      | none =>
        refine ⟨Nat.zero_le _, by simp [joinLines], ?_, by simp⟩
        simpa using takeLine_eq_none.mp ht
      | some p =>
        obtain ⟨line, rest⟩ := p
        obtain ⟨he, hnl⟩ := takeLine_eq_some ht
        have hlen := takeLine_rest_length ht
        have hrest : rest.length ≤ n := by omega
        obtain ⟨ih1, ih2, ih3, ih4⟩ := ih rest hrest
        subst he
        have hlenline : (line ++ nlChar :: rest).length = line.length + 1 + rest.length := by
          simp only [List.length_append, List.length_cons]; omega
        refine ⟨?_, ?_, ?_, ?_⟩
        · simp only [hlenline]; omega
        · have htake : (line ++ nlChar :: rest).take (line.length + 1 + (readLinesFuel n rest).2) =
              line ++ nlChar :: rest.take (readLinesFuel n rest).2 := by
            rw [List.take_append_eq_append_take]
            rw [List.take_of_length_le (by omega)]
            congr 1
            have : line.length + 1 + (readLinesFuel n rest).2 - line.length =
                (readLinesFuel n rest).2 + 1 := by omega
            rw [this]
            simp [List.take_succ_cons]
          simp only [htake, joinLines, List.map_cons, List.flatten_cons]
          rw [ih2]
          simp [joinLines]
        · have hdrop : (line ++ nlChar :: rest).drop (line.length + 1 + (readLinesFuel n rest).2) =
              rest.drop (readLinesFuel n rest).2 := by
            rw [List.drop_append_eq_append_drop]
            rw [List.drop_of_length_le (by omega)]
            have : line.length + 1 + (readLinesFuel n rest).2 - line.length =
                (readLinesFuel n rest).2 + 1 := by omega
            rw [this]
            simp [List.drop_succ_cons]
          rw [hdrop]
          exact ih3
        · intro s hs
          rcases List.mem_cons.mp hs with h' | h'
          · subst h'; exact hnl
          · exact ih4 s h'
  intro l
  exact main l.length l (Nat.le_refl _)

theorem takeLine_append_of_no_nl {t : List Char} (hnl : nlChar ∉ t) (r : List Char) :
    takeLine (t ++ r) = (takeLine r).map (fun p => (t ++ p.1, p.2)) := by
  induction t with
  | nil =>
    cases h : takeLine r with
    | none => simp [h]
    | some p => simp [h]
  | cons c t ih =>
    have hc : ¬ c = nlChar := fun h => hnl (by simp [h])
    have ht : nlChar ∉ t := fun hm => hnl (List.mem_cons_of_mem _ hm)
    have ih' := ih ht
    simp only [List.cons_append, takeLine, if_neg hc]
    cases h' : takeLine r with
    | none =>
      have h2 : takeLine (t.append r) = none := by
        rw [show t.append r = t ++ r from rfl, ih', h']; rfl
      rw [h2]
      rfl
    | some p =>
      have h2 : takeLine (t.append r) = some (t ++ p.1, p.2) := by
        rw [show t.append r = t ++ r from rfl, ih', h']; rfl
      rw [h2]
      rfl

theorem readLines_head_of_append {t r line tail2 : List Char}
    (hnl : nlChar ∉ t) (h : takeLine r = some (line, tail2)) :
    (readLines (t ++ r)).1.head? = some (t ++ line) := by
  have htl : takeLine (t ++ r) = some (t ++ line, tail2) := by
    rw [takeLine_append_of_no_nl hnl, h]; rfl
  have hr : r = line ++ nlChar :: tail2 := (takeLine_eq_some h).1
  have hpos : 0 < (t ++ r).length := by
    subst hr
    simp only [List.length_append, List.length_cons]
    omega
  obtain ⟨m, hm⟩ : ∃ m, (t ++ r).length = m + 1 := ⟨(t ++ r).length - 1, by omega⟩
  unfold readLines
  rw [hm]
  simp only [readLinesFuel, htl]
  rfl

/-- Modelled from the spec: `read_from(path, start_offset)` of the Log Reader
(spec §4.2), with the file's current contents passed explicitly.  Reads from
`start` to end-of-content, keeps only complete newline-terminated lines, and
returns them with the offset of the end of the last consumed complete line. -/
def readFrom (content : List Char) (start : Nat) : List (List Char) × Nat :=
  let p := readLines (content.drop start)
  (p.1, start + p.2)

/-- Modelled from the spec: `LogParser::parse_from_position` — reads complete
lines from the given offset and parses each one independently, skipping lines
that fail to parse (spec §4.2).  The per-line parser is a parameter, since the
log schema itself is outside the claims. -/
def parse_from_position (parseLine : List Char → Option LogEntry)
    (content : List Char) (start : Nat) : List LogEntry × Nat :=
  let p := readFrom content start
  (p.1.filterMap parseLine, p.2)

/-- C3: for every file content and start offset, the Log Reader consumes only
complete, newline-terminated lines: the consumed region is exactly the
returned lines with their terminators (`new_offset` is the end of the last
consumed complete line), the bytes after the last newline are not consumed
and contain no newline, and once a later write completes the unfinished tail
line, the next pass starting at `new_offset` reads that tail as the start of
its first line. -/
theorem C3_log_reader_partial_line_safety
    (content : List Char) (start : Nat) (h : start ≤ content.length) :
    start ≤ (readFrom content start).2 ∧
    (readFrom content start).2 ≤ content.length ∧
    (content.drop start).take ((readFrom content start).2 - start) =
      joinLines (readFrom content start).1 ∧
    nlChar ∉ content.drop (readFrom content start).2 ∧
    (∀ s ∈ (readFrom content start).1, nlChar ∉ s) ∧
    (∀ rest line tail2, takeLine rest = some (line, tail2) →
      ((readFrom (content ++ rest) (readFrom content start).2).1).head? =
        some (content.drop (readFrom content start).2 ++ line)) := by
  obtain ⟨h1, h2, h3, h4⟩ := readLines_spec (content.drop start)
  have hreg : (content.drop start).length = content.length - start := by
    simp [List.length_drop]
  simp only [readFrom]
  have hdrop : ∀ k : Nat, content.drop (start + k) = (content.drop start).drop k := by
    intro k
    rw [List.drop_drop]
  refine ⟨Nat.le_add_right _ _, by omega, ?_, ?_, h4, ?_⟩
  · have : start + (readLines (content.drop start)).2 - start =
        (readLines (content.drop start)).2 := by omega
    rw [this, h2]
  · rw [hdrop]
    exact h3
  · intro rest line tail2 hline
    have hofflen : start + (readLines (content.drop start)).2 ≤ content.length := by omega
    have happ : (content ++ rest).drop (start + (readLines (content.drop start)).2) =
        content.drop (start + (readLines (content.drop start)).2) ++ rest := by
      rw [List.drop_append_eq_append_drop]
      have : start + (readLines (content.drop start)).2 - content.length = 0 := by omega
      rw [this]
      rfl
    simp only [readFrom, happ]
    rw [hdrop]
    exact readLines_head_of_append h3 hline

/-- Witness for C3: the concrete file `"ab\nc"` read from offset 0. -/
theorem C3_log_reader_partial_line_safety_witness :
    (0 : Nat) ≤ (['a', 'b', nlChar, 'c'] : List Char).length ∧
    (0 ≤ (readFrom ['a', 'b', nlChar, 'c'] 0).2 ∧
     (readFrom ['a', 'b', nlChar, 'c'] 0).2 ≤ (['a', 'b', nlChar, 'c'] : List Char).length ∧
     ((['a', 'b', nlChar, 'c'] : List Char).drop 0).take
         ((readFrom ['a', 'b', nlChar, 'c'] 0).2 - 0) =
       joinLines (readFrom ['a', 'b', nlChar, 'c'] 0).1 ∧
     nlChar ∉ (['a', 'b', nlChar, 'c'] : List Char).drop (readFrom ['a', 'b', nlChar, 'c'] 0).2 ∧
     (∀ s ∈ (readFrom ['a', 'b', nlChar, 'c'] 0).1, nlChar ∉ s) ∧
     (∀ rest line tail2, takeLine rest = some (line, tail2) →
       ((readFrom (['a', 'b', nlChar, 'c'] ++ rest)
           (readFrom ['a', 'b', nlChar, 'c'] 0).2).1).head? =
         some ((['a', 'b', nlChar, 'c'] : List Char).drop
             (readFrom ['a', 'b', nlChar, 'c'] 0).2 ++ line))) :=
  ⟨by decide, C3_log_reader_partial_line_safety ['a', 'b', nlChar, 'c'] 0 (by decide)⟩

/-! ## Cursor Store (spec §4.1)

Modelled from the spec: the `PositionStore` component is referenced by
`watch.rs` (`get_start_position`, `set_position`, `save`) but its module is
missing from the source tree.  Per spec §3 a cursor is
`(file_path, byte_offset, last_seen_size)`; per §4.1 an unknown file has
offset 0; per §4.2 a file whose current size is below the last recorded size
is treated as truncated/rotated and read from offset 0. -/

/-- Modelled from the spec: one cursor record — the last-consumed byte offset
and the last seen size of one watched file (spec §3 `Cursor`). -/
structure Cursor where
  offset : Nat
  lastSeenSize : Nat
deriving DecidableEq, Repr

/-- Modelled from the spec: the in-memory cursor table, file path → cursor
(spec §4.1).  Persistence (`save`) does I/O and is outside the claims. -/
abbrev PositionStore := List (String × Cursor)

/-- The cursor recorded for a path, if any. -/
def PositionStore.findCursor (ps : PositionStore) (path : String) : Option Cursor :=
  (ps.find? (fun kv => kv.1 == path)).map (fun kv => kv.2)

/-- The recorded byte offset for a path; 0 if unknown (spec §4.1). -/
def get_offset (ps : PositionStore) (path : String) : Nat :=
  ((ps.findCursor path).map Cursor.offset).getD 0

/-- The recorded last seen size for a path; 0 if unknown. -/
def get_last_seen_size (ps : PositionStore) (path : String) : Nat :=
  ((ps.findCursor path).map Cursor.lastSeenSize).getD 0

/-- Modelled from the spec: `PositionStore::get_start_position` — where the
next read of `path` starts given the file's current size: 0 for an unknown
file, 0 when the file shrank below the last recorded size (truncation
detected, spec §4.2), otherwise the recorded offset. -/
def get_start_position (ps : PositionStore) (fileSize : Nat) (path : String) : Nat :=
  match ps.findCursor path with
  | none => 0
  | some c => if fileSize < c.lastSeenSize then 0 else c.offset

/-- Modelled from the spec: `PositionStore::set_position` — record the new
offset and the file's current size for `path` in the in-memory table
(spec §4.1 `set_offset`). -/
def set_position (ps : PositionStore) (path : String) (pos : Nat)
    (fileSize : Nat) : PositionStore :=
  (path, { offset := pos, lastSeenSize := fileSize }) ::
    ps.filter (fun kv => !(kv.1 == path))

/-! ## Session Window (spec §4.4)

Modelled from the spec: the `SessionTracker` component is referenced by
`watch.rs` and `history.rs` (`process_entry`, `check_idle_sessions`,
`flush_all`) but its module is missing from the source tree. -/

/-- In-flight session state (spec §3 Session): ordered entries, project root,
last-activity and creation timestamps. -/
structure Session where
  events : List LogEntry
  projectRoot : String
  lastActivity : Nat
  createdAt : Nat
deriving DecidableEq, Repr

/-- Modelled from the spec: the key of an in-flight session is
`(project_id, session_id)` (spec §4.4); the project id of an entry is derived
deterministically from its project path, modelled as the path itself. -/
def entryKey (e : LogEntry) : String × String := (e.projectPath, e.sessionId)

/-- Modelled from the spec: the in-flight session table. -/
abbrev SessionTracker := List ((String × String) × Session)

/-- The in-flight session stored under a key, if any. -/
def SessionTracker.findSession (tr : SessionTracker) (k : String × String) :
    Option Session :=
  (tr.find? (fun kv => decide (kv.1 = k))).map (fun kv => kv.2)

/-- The keys of the in-flight table. -/
def trackerKeys (tr : SessionTracker) : List (String × String) :=
  tr.map (fun kv => kv.1)

/-- Modelled from the spec: `SessionTracker::process_entry` (spec §4.4) —
append the entry to the session matching its key, creating the session if
absent; appending preserves arrival order and refreshes the last-activity
timestamp. -/
def process_entry (tr : SessionTracker) (now : Nat) (e : LogEntry) : SessionTracker :=
  match tr.findSession (entryKey e) with
  | some s =>
    tr.map (fun kv =>
      if kv.1 = entryKey e
      then (kv.1, { s with events := s.events ++ [e], lastActivity := now })
      else kv)
  | none =>
    tr ++ [(entryKey e,
      { events := [e], projectRoot := e.projectPath,
        lastActivity := now, createdAt := now })]

/-- The immutable completed snapshot of one in-flight table row. -/
def toCompletedSession (kv : (String × String) × Session) : CompletedSession :=
  { session_id := kv.1.2, project_id := kv.1.1,
    project_root := kv.2.projectRoot, events := kv.2.events }

/-- Modelled from the spec: a session is idle-expired when its idle time
exceeds the fixed threshold (spec §4.4, §8). -/
def isIdleExpired (now threshold : Nat) (s : Session) : Bool :=
  threshold < now - s.lastActivity

/-- Modelled from the spec: `SessionTracker::check_idle_sessions` (spec §4.4)
— remove every idle-expired session from the in-flight table and return the
removed sessions as completed. -/
def check_idle_sessions (tr : SessionTracker) (now threshold : Nat) :
    SessionTracker × List CompletedSession :=
  (tr.filter (fun kv => !(isIdleExpired now threshold kv.2)),
   (tr.filter (fun kv => isIdleExpired now threshold kv.2)).map toCompletedSession)

/-- Modelled from the spec: `SessionTracker::flush_all` (spec §4.4) — drain
every remaining open session regardless of idle time. -/
def flush_all (tr : SessionTracker) : SessionTracker × List CompletedSession :=
  ([], tr.map toCompletedSession)

/-! ## IPC types and the Dispatcher (spec §4.5, §6)

Modelled from the spec: the `ipc` module (`IpcClient`,
`ProcessEpisodeRequest`, `ExistingUserStyle`, `ExistingProjectMemory`) and
the storage read queries (`storage::get_user_styles`,
`storage::get_project_memories`) are referenced by `watch.rs` and
`history.rs` but missing from the source tree.  The storage results and the
transport round-trip are modelled as explicit `Except` values. -/

/-- Modelled from the spec: a known global deduplication fact
(`ExistingUserStyle`), spec §6 `Fact` scoped globally. -/
structure ExistingUserStyle where
  id : String
  text : String
deriving DecidableEq, Repr

/-- Modelled from the spec: a known project-scoped deduplication fact
(`ExistingProjectMemory`), spec §6 `Fact` scoped to a project. -/
structure ExistingProjectMemory where
  id : String
  category : String
  subcategory : String
  text : String
deriving DecidableEq, Repr

/-- Modelled from the spec: the dispatch request to the enrichment
collaborator (spec §3 DispatchRequest, §6): the completed session plus the
two deduplication-context snapshots. -/
structure ProcessEpisodeRequest where
  project_id : String
  project_root : String
  events : List LogEntry
  existing_user_styles : List ExistingUserStyle
  existing_project_memories : List ExistingProjectMemory
deriving DecidableEq, Repr

/-- Modelled from the spec: the enrichment collaborator's response
(spec §3 DispatchResponse, §6). -/
structure ProcessEpisodeResponse where
  skipped : Bool
  skip_reason : Option String
  user_styles : List ExistingUserStyle
  project_memories : List ExistingProjectMemory
deriving DecidableEq, Repr

/-- One observable action of the pipeline, in program order.  Log statements
are not modelled; fetches, dispatches and checkpoint saves are the actions
the claims speak about. -/
inductive DaemonOp where
  /-- a parsed entry handed to the Session Window -/
  | handoff (e : LogEntry)
  /-- the cursor offset of a file updated in the Cursor Store -/
  | setPosition (path : String) (pos : Nat)
  /-- read query for the globally-scoped deduplication facts -/
  | fetchUserStyles
  /-- read query for the project-scoped deduplication facts -/
  | fetchProjectMemories (root : String)
  /-- synchronous dispatch call to the enrichment collaborator -/
  | dispatch (req : ProcessEpisodeRequest)
  /-- the Cursor Store persisted -/
  | savePositions (ps : PositionStore)
deriving DecidableEq, Repr

/-- From `watch.rs` `fetch_existing_user_styles`: fetch known user styles
from storage; a storage failure is logged and degrades to an empty list. -/
def fetch_existing_user_styles
    (res : Except String (List ExistingUserStyle)) : List ExistingUserStyle :=
  match res with
  | .ok styles => styles
  | .error _e => []

/-- From `watch.rs` `fetch_existing_project_memories`: fetch known project
memories from storage; a storage failure is logged and degrades to an empty
list. -/
def fetch_existing_project_memories
    (res : Except String (List ExistingProjectMemory)) : List ExistingProjectMemory :=
  match res with
  | .ok memories => memories
  | .error _e => []

/-- From `watch.rs` `send_to_service`: send a completed session to the
enrichment service.  An empty session returns immediately; otherwise the two
deduplication contexts are fetched, the request is built and dispatched, and
both outcomes (response or transport error) are only logged — the function
changes no pipeline state and returns unit in the source, so its embedding
returns just the list of observable actions. -/
def send_to_service (userStylesRes : Except String (List ExistingUserStyle))
    (projectMemoriesRes : String → Except String (List ExistingProjectMemory))
    (transport : ProcessEpisodeRequest → Except String ProcessEpisodeResponse)
    (session : CompletedSession) : List DaemonOp :=
  if session.events.isEmpty then []
  else
    let existing_user_styles := fetch_existing_user_styles userStylesRes
    let existing_project_memories :=
      fetch_existing_project_memories (projectMemoriesRes session.project_root)
    let request : ProcessEpisodeRequest :=
      { project_id := session.project_id
        project_root := session.project_root
        events := session.events
        existing_user_styles := existing_user_styles
        existing_project_memories := existing_project_memories }
    [DaemonOp.fetchUserStyles, DaemonOp.fetchProjectMemories session.project_root,
     DaemonOp.dispatch request] ++
      match transport request with
      | .ok _response => []
      | .error _e => []

/-- The daemon's mutable pipeline state: the locals `position_store` and
`session_tracker` of `run_daemon` in `watch.rs`. -/
structure DaemonState where
  position_store : PositionStore
  session_tracker : SessionTracker
deriving DecidableEq, Repr

/-- From `watch.rs` `process_file`: read new data for `path` from the
recorded start position, feed every parsed entry to the session tracker,
then update the recorded position — returning early, before the position
update, when no entry was parsed.  The filesystem is modelled as a map from
path to current content and `now` is the instant of the pass; the returned
list is the observable actions in program order. -/
def process_file (parseLine : List Char → Option LogEntry)
    (fs : String → List Char) (now : Nat) (path : String)
    (st : DaemonState) : DaemonState × List DaemonOp :=
  let start_pos := get_start_position st.position_store (fs path).length path
  let p := parse_from_position parseLine (fs path) start_pos
  if p.1.isEmpty then (st, [])
  else
    let tracker := p.1.foldl (fun tr e => process_entry tr now e) st.session_tracker
    ({ position_store := set_position st.position_store path p.2 (fs path).length,
       session_tracker := tracker },
     p.1.map DaemonOp.handoff ++ [DaemonOp.setPosition path p.2])

/-- Interpretation of one observable action over the pipeline state: handing
an entry to the Session Window and recording a position are the
state-changing actions; fetches, dispatches and saves change no pipeline
state. -/
def applyOp (fs : String → List Char) (now : Nat) (st : DaemonState) :
    DaemonOp → DaemonState
  | .handoff e => { st with session_tracker := process_entry st.session_tracker now e }
  | .setPosition path pos =>
    { st with position_store := set_position st.position_store path pos (fs path).length }
  | _ => st

/-- Interpretation of an action trace, first action first. -/
def applyOps (fs : String → List Char) (now : Nat) (st : DaemonState)
    (ops : List DaemonOp) : DaemonState :=
  ops.foldl (applyOp fs now) st

/-- The entries one pass of `process_file` over `path` parses (the local
`entries` of `process_file`). -/
def pass_entries (parseLine : List Char → Option LogEntry)
    (fs : String → List Char) (path : String) (st : DaemonState) : List LogEntry :=
  (parse_from_position parseLine (fs path)
    (get_start_position st.position_store (fs path).length path)).1

/-- The end position one pass of `process_file` over `path` computes (the
local `end_pos` of `process_file`). -/
def pass_end_pos (parseLine : List Char → Option LogEntry)
    (fs : String → List Char) (path : String) (st : DaemonState) : Nat :=
  (parse_from_position parseLine (fs path)
    (get_start_position st.position_store (fs path).length path)).2

theorem start_le_parse_end (pl : List Char → Option LogEntry)
    (content : List Char) (s : Nat) : s ≤ (parse_from_position pl content s).2 := by
  simp only [parse_from_position, readFrom]
  exact Nat.le_add_right _ _

theorem get_offset_set_position (ps : PositionStore) (path : String)
    (pos size : Nat) : get_offset (set_position ps path pos size) path = pos := by
  simp [get_offset, set_position, PositionStore.findCursor, List.find?]

theorem applyOps_handoffs (fs : String → List Char) (now : Nat) :
    ∀ (entries : List LogEntry) (st : DaemonState),
      applyOps fs now st (entries.map DaemonOp.handoff) =
        { position_store := st.position_store,
          session_tracker :=
            entries.foldl (fun tr e => process_entry tr now e) st.session_tracker } := by
  intro entries
  induction entries with
  | nil => intro st; rfl
  | cons e rest ih =>
    intro st
    simp only [List.map_cons, applyOps, List.foldl_cons]
    exact ih { position_store := st.position_store,
               session_tracker := process_entry st.session_tracker now e }

/-- C10: if a read pass for a file yields zero parsed entries, `process_file`
returns before calling `set_position`, leaving the whole pipeline state (in
particular the stored offset for that file) unchanged — even when the parser
consumed bytes and returned a larger end position. -/
theorem C10_empty_parse_leaves_state_unchanged
    (parseLine : List Char → Option LogEntry) (fs : String → List Char)
    (now : Nat) (path : String) (st : DaemonState)
    (h : pass_entries parseLine fs path st = []) :
    process_file parseLine fs now path st = (st, []) := by
  simp only [pass_entries] at h
  simp [process_file, h]

/-- Witness for C10: a file whose only new line is unparseable — the parser
consumes 2 bytes (end position 2 > start 0) yet the state is unchanged. -/
theorem C10_empty_parse_leaves_state_unchanged_witness :
    pass_entries (fun _ => none) (fun _ => ['x', nlChar]) "f"
      { position_store := [], session_tracker := [] } = [] ∧
    0 < pass_end_pos (fun _ => none) (fun _ => ['x', nlChar]) "f"
      { position_store := [], session_tracker := [] } ∧
    process_file (fun _ => none) (fun _ => ['x', nlChar]) 0 "f"
      { position_store := [], session_tracker := [] } =
      ({ position_store := [], session_tracker := [] }, []) :=
  ⟨by decide, by decide,
   C10_empty_parse_leaves_state_unchanged (fun _ => none) (fun _ => ['x', nlChar])
     0 "f" { position_store := [], session_tracker := [] } (by decide)⟩

/-- C4: in a pass of `process_file` the recorded byte offset for a file never
decreases, unless the file's current size is strictly below the last recorded
size (truncation/rotation), in which case the read of this pass starts at
offset 0. -/
theorem C4_offset_monotone_unless_truncation
    (parseLine : List Char → Option LogEntry) (fs : String → List Char)
    (now : Nat) (path : String) (st : DaemonState) :
    (¬ (fs path).length < get_last_seen_size st.position_store path →
      get_offset st.position_store path ≤
        get_offset (process_file parseLine fs now path st).1.position_store path) ∧
    ((fs path).length < get_last_seen_size st.position_store path →
      get_start_position st.position_store (fs path).length path = 0) := by
  constructor
  · intro h
    simp only [process_file]
    split
    · exact Nat.le_refl _
    · have hstart : get_offset st.position_store path ≤
          get_start_position st.position_store (fs path).length path := by
        simp only [get_offset, get_last_seen_size] at h ⊢
        simp only [get_start_position]
        cases hc : st.position_store.findCursor path with
        | none => simp [hc]
        | some c =>
          rw [hc] at h
          simp only [Option.map_some', Option.getD_some] at h
          show c.offset ≤ if (fs path).length < c.lastSeenSize then 0 else c.offset
          rw [if_neg h]
      calc get_offset st.position_store path
        ≤ get_start_position st.position_store (fs path).length path := hstart
        _ ≤ (parse_from_position parseLine (fs path)
              (get_start_position st.position_store (fs path).length path)).2 :=
            start_le_parse_end _ _ _
        _ = _ := (get_offset_set_position _ _ _ _).symm
  · intro h
    simp only [get_last_seen_size] at h
    simp only [get_start_position]
    cases hc : st.position_store.findCursor path with
    | none => simp [hc] at h
    | some c =>
      rw [hc] at h
      simp only [Option.map_some', Option.getD_some] at h
      show (if (fs path).length < c.lastSeenSize then 0 else c.offset) = 0
      rw [if_pos h]

/-- Witness for C4: a non-shrunken file (size 3, recorded size 3, offset 2)
keeps its offset, and a shrunken file (size 1, recorded size 9) is read from
offset 0. -/
theorem C4_offset_monotone_unless_truncation_witness :
    (¬ ((fun _ : String => ['a', nlChar, 'b']) "f").length <
        get_last_seen_size [("f", { offset := 2, lastSeenSize := 3 })] "f") ∧
    get_offset [("f", { offset := 2, lastSeenSize := 3 })] "f" ≤
      get_offset (process_file (fun _ => none) (fun _ => ['a', nlChar, 'b']) 0 "f"
        { position_store := [("f", { offset := 2, lastSeenSize := 3 })],
          session_tracker := [] }).1.position_store "f" ∧
    (((fun _ : String => ['z']) "f").length <
        get_last_seen_size [("f", { offset := 5, lastSeenSize := 9 })] "f") ∧
    get_start_position [("f", { offset := 5, lastSeenSize := 9 })]
      ((fun _ : String => ['z']) "f").length "f" = 0 :=
  ⟨by decide,
   (C4_offset_monotone_unless_truncation (fun _ => none) (fun _ => ['a', nlChar, 'b'])
      0 "f" { position_store := [("f", { offset := 2, lastSeenSize := 3 })],
              session_tracker := [] }).1 (by decide),
   by decide,
   (C4_offset_monotone_unless_truncation (fun _ => none) (fun _ => ['z'])
      0 "f" { position_store := [("f", { offset := 5, lastSeenSize := 9 })],
              session_tracker := [] }).2 (by decide)⟩

/-- C1: in one pass of `process_file` every parsed entry is handed to the
Session Window before the cursor offset is updated (the trace is all handoffs
followed by the single position update), the resulting state is the
interpretation of that trace, and a crash at any point before the position
update leaves the stored cursor untouched, so a restarted pass re-parses
exactly the same entries (at-least-once delivery). -/
theorem C1_handoffs_precede_cursor_update
    (parseLine : List Char → Option LogEntry) (fs : String → List Char)
    (now : Nat) (path : String) (st : DaemonState) :
    (process_file parseLine fs now path st).2 =
      (pass_entries parseLine fs path st).map DaemonOp.handoff ++
        (if (pass_entries parseLine fs path st).isEmpty then []
         else [DaemonOp.setPosition path (pass_end_pos parseLine fs path st)]) ∧
    (process_file parseLine fs now path st).1 =
      applyOps fs now st (process_file parseLine fs now path st).2 ∧
    (∀ k, k ≤ (pass_entries parseLine fs path st).length →
      (applyOps fs now st
          ((process_file parseLine fs now path st).2.take k)).position_store =
        st.position_store ∧
      pass_entries parseLine fs path
          (applyOps fs now st ((process_file parseLine fs now path st).2.take k)) =
        pass_entries parseLine fs path st) := by
  have htrace : (process_file parseLine fs now path st).2 =
      (pass_entries parseLine fs path st).map DaemonOp.handoff ++
        (if (pass_entries parseLine fs path st).isEmpty then []
         else [DaemonOp.setPosition path (pass_end_pos parseLine fs path st)]) := by
    simp only [process_file, pass_entries, pass_end_pos]
    split
    · rename_i he
      rw [List.isEmpty_iff] at he
      simp [he]
    · rename_i he
      simp only [if_neg (by simpa using he)]
  have hpre : ∀ k, k ≤ (pass_entries parseLine fs path st).length →
      (process_file parseLine fs now path st).2.take k =
        ((pass_entries parseLine fs path st).take k).map DaemonOp.handoff := by
    intro k hk
    rw [htrace, List.take_append_eq_append_take]
    have : k - ((pass_entries parseLine fs path st).map DaemonOp.handoff).length = 0 := by
      simp only [List.length_map]; omega
    rw [this, List.take_zero, List.append_nil, List.map_take]
  refine ⟨htrace, ?_, ?_⟩
  · simp only [process_file, pass_entries, pass_end_pos] at htrace ⊢
    split
    · rfl
    · rename_i he
      rw [if_neg (by simpa using he)] at htrace
      split at htrace
      · rename_i he2
        exact absurd he2 (by simpa using he)
      · simp only [applyOps, List.foldl_append]
        have hh := applyOps_handoffs fs now
          (parse_from_position parseLine (fs path)
            (get_start_position st.position_store (fs path).length path)).1 st
        simp only [applyOps] at hh
        rw [hh]
        rfl
  · intro k hk
    rw [hpre k hk]
    have hh := applyOps_handoffs fs now ((pass_entries parseLine fs path st).take k) st
    rw [hh]
    exact ⟨rfl, by simp only [pass_entries]⟩

/-- Witness for C1: one parseable line; a crash after the single handoff but
before the position update leaves the cursor store untouched. -/
theorem C1_handoffs_precede_cursor_update_witness :
    1 ≤ (pass_entries
        (fun l => some { timestamp := 0, sessionId := "s", projectPath := "p", payload := l })
        (fun _ => ['a', nlChar]) "f"
        { position_store := [], session_tracker := [] }).length ∧
    (applyOps (fun _ => ['a', nlChar]) 0 { position_store := [], session_tracker := [] }
        ((process_file
          (fun l => some { timestamp := 0, sessionId := "s", projectPath := "p", payload := l })
          (fun _ => ['a', nlChar]) 0 "f"
          { position_store := [], session_tracker := [] }).2.take 1)).position_store = [] :=
  ⟨by decide,
   ((C1_handoffs_precede_cursor_update
      (fun l => some { timestamp := 0, sessionId := "s", projectPath := "p", payload := l })
      (fun _ => ['a', nlChar]) 0 "f"
      { position_store := [], session_tracker := [] }).2.2 1 (by decide)).1⟩

/-! ## The run loop of `run_daemon` (watch.rs) and history processing -/

/-- From `watch.rs`: the idle-check (and position-save) interval of the main
loop, in seconds. -/
def IDLE_CHECK_INTERVAL_SECS : Nat := 60

/-- From `file_watcher.rs`: events emitted by the file watcher. -/
inductive WatchEvent where
  | modified (path : String)
  | created (path : String)
deriving DecidableEq, Repr

/-- The external collaborators of one run, modelled as pure functions: the
log-schema parser, the filesystem contents, the two storage read queries and
the enrichment transport, plus the Session Window's idle threshold (whose
numeric value lives in the `SessionTracker` module, missing from the source
tree). -/
structure Env where
  parseLine : List Char → Option LogEntry
  fs : String → List Char
  userStylesRes : Except String (List ExistingUserStyle)
  projectMemoriesRes : String → Except String (List ExistingProjectMemory)
  transport : ProcessEpisodeRequest → Except String ProcessEpisodeResponse
  idleThreshold : Nat

/-- The input one iteration of the `run_daemon` loop sees: the pending file
events drained this iteration and the instant of the iteration.
`shutdownSignal` records whether a shutdown signal has been delivered to the
process by this iteration; `run_daemon` installs no signal handler and its
loop body never consults it, so the field exists only so that statements
about shutdown behaviour can be made. -/
structure TickInput where
  events : List WatchEvent
  now : Nat
  shutdownSignal : Bool
deriving DecidableEq, Repr

/-- The loop state of `run_daemon`: the pipeline state plus the
`last_idle_check` instant. -/
structure LoopState where
  pipeline : DaemonState
  last_idle_check : Nat
deriving DecidableEq, Repr

/-- From `watch.rs` `run_daemon`, one iteration of the main loop: drain all
pending file events through `process_file`; then, if the idle-check interval
has elapsed, reset the idle-check clock, sweep idle sessions, send each
completed session to the service, and save the position store.  The
delivered shutdown signal is ignored, exactly as in the source, whose loop
body has no shutdown branch. -/
def run_tick (env : Env) (input : TickInput) (st : LoopState) :
    LoopState × List DaemonOp :=
  let drained := input.events.foldl
    (fun (acc : DaemonState × List DaemonOp) ev =>
      match ev with
      | .modified path | .created path =>
        let p := process_file env.parseLine env.fs input.now path acc.1
        (p.1, acc.2 ++ p.2))
    (st.pipeline, [])
  if IDLE_CHECK_INTERVAL_SECS ≤ input.now - st.last_idle_check then
    let swept := check_idle_sessions drained.1.session_tracker input.now env.idleThreshold
    let dispatchOps := (swept.2.map
      (send_to_service env.userStylesRes env.projectMemoriesRes env.transport)).flatten
    ({ pipeline := { position_store := drained.1.position_store,
                     session_tracker := swept.1 },
       last_idle_check := input.now },
     drained.2 ++ dispatchOps ++ [DaemonOp.savePositions drained.1.position_store])
  else
    ({ pipeline := drained.1, last_idle_check := st.last_idle_check }, drained.2)

/-- From `watch.rs` `run_daemon`: the main event loop, iterated over a finite
schedule of tick inputs.  The loop in the source runs forever — it has no
shutdown branch and no exit — so a finite run models the process being
killed from outside after the last tick. -/
def run_daemon (env : Env) (inputs : List TickInput) (st : LoopState) :
    LoopState × List DaemonOp :=
  inputs.foldl
    (fun acc input =>
      let p := run_tick env input acc.1
      (p.1, acc.2 ++ p.2))
    (st, [])

/-- Per-run statistics of `process_history` (from `history.rs`
`ProcessingStats`). -/
structure ProcessingStats where
  files_processed : Nat
  files_failed : Nat
  entries_parsed : Nat
  sessions_found : Nat
  sessions_processed : Nat
  sessions_failed : Nat
deriving DecidableEq, Repr

/-- From `history.rs` `process_history`, the body of the final dispatch loop
(one `session` of the `for session in remaining` loop): count the session;
if it has events, build a request **with empty deduplication context** and
dispatch it, counting success or failure — a failure is only logged and the
loop continues with the next session. -/
def history_flush_step
    (transport : ProcessEpisodeRequest → Except String ProcessEpisodeResponse)
    (acc : ProcessingStats × List DaemonOp) (session : CompletedSession) :
    ProcessingStats × List DaemonOp :=
  let stats1 := { acc.1 with sessions_found := acc.1.sessions_found + 1 }
  if session.events.isEmpty then (stats1, acc.2)
  else
    let request : ProcessEpisodeRequest :=
      { project_id := session.project_id
        project_root := session.project_root
        events := session.events
        existing_user_styles := []
        existing_project_memories := [] }
    match transport request with
    | .ok _response =>
      ({ stats1 with sessions_processed := stats1.sessions_processed + 1 },
       acc.2 ++ [DaemonOp.dispatch request])
    | .error _e =>
      ({ stats1 with sessions_failed := stats1.sessions_failed + 1 },
       acc.2 ++ [DaemonOp.dispatch request])

/-- From `history.rs` `process_history`: the final stage — flush every
remaining session from the tracker and run the dispatch loop over them. -/
def process_history_flush
    (transport : ProcessEpisodeRequest → Except String ProcessEpisodeResponse)
    (tracker : SessionTracker) (stats : ProcessingStats) :
    ProcessingStats × List DaemonOp :=
  (flush_all tracker).2.foldl (history_flush_step transport) (stats, [])

/-- The request `send_to_service` builds for a session (its local
`request`). -/
def build_request (us : Except String (List ExistingUserStyle))
    (pm : String → Except String (List ExistingProjectMemory))
    (session : CompletedSession) : ProcessEpisodeRequest :=
  { project_id := session.project_id
    project_root := session.project_root
    events := session.events
    existing_user_styles := fetch_existing_user_styles us
    existing_project_memories :=
      fetch_existing_project_memories (pm session.project_root) }

/-- Whether an action is a dispatch call to the enrichment collaborator. -/
def isDispatchOp : DaemonOp → Bool
  | .dispatch _ => true
  | _ => false

/-- Whether an action is one of the two deduplication-context read queries. -/
def isFetchOp : DaemonOp → Bool
  | .fetchUserStyles => true
  | .fetchProjectMemories _ => true
  | _ => false

theorem send_to_service_eq (us : Except String (List ExistingUserStyle))
    (pm : String → Except String (List ExistingProjectMemory))
    (t : ProcessEpisodeRequest → Except String ProcessEpisodeResponse)
    (session : CompletedSession) (h : session.events.isEmpty = false) :
    send_to_service us pm t session =
      [DaemonOp.fetchUserStyles, DaemonOp.fetchProjectMemories session.project_root,
       DaemonOp.dispatch (build_request us pm session)] := by
  simp only [send_to_service, h, Bool.false_eq_true, if_false, build_request]
  cases t { project_id := session.project_id, project_root := session.project_root,
            events := session.events,
            existing_user_styles := fetch_existing_user_styles us,
            existing_project_memories :=
              fetch_existing_project_memories (pm session.project_root) } with
  | ok r => rfl
  | error e => rfl

/-- The single log entry used in concrete instantiations. -/
def sampleEntry : LogEntry :=
  { timestamp := 0, sessionId := "s", projectPath := "p", payload := ['a'] }

/-- A successful enrichment response used in concrete instantiations. -/
def okResponse : ProcessEpisodeResponse :=
  { skipped := false, skip_reason := none, user_styles := [], project_memories := [] }

/-- All-zero statistics, the starting value of `process_history`. -/
def zeroStats : ProcessingStats :=
  { files_processed := 0, files_failed := 0, entries_parsed := 0,
    sessions_found := 0, sessions_processed := 0, sessions_failed := 0 }

/-- A one-event completed session used in concrete instantiations. -/
def sampleSession : CompletedSession :=
  { session_id := "s", project_id := "p", project_root := "r",
    events := [sampleEntry] }

/-- An event-less completed session used in concrete instantiations. -/
def emptySession : CompletedSession :=
  { session_id := "s", project_id := "p", project_root := "r", events := [] }

/-- C6: a dispatch failure is non-fatal and changes nothing: when the
transport fails for a session's request, `send_to_service` still performs
exactly the two fetches and the single dispatch and nothing more (no retry);
dispatching changes no pipeline state whatever the outcome; and the dispatch
loop performs exactly one dispatch per non-empty session, so sessions after
a failed one are still dispatched. -/
theorem C6_dispatch_failure_nonfatal
    (us : Except String (List ExistingUserStyle))
    (pm : String → Except String (List ExistingProjectMemory))
    (t : ProcessEpisodeRequest → Except String ProcessEpisodeResponse)
    (fs : String → List Char) (now : Nat) :
    (∀ (session : CompletedSession) (msg : String),
      session.events.isEmpty = false →
      t (build_request us pm session) = Except.error msg →
      send_to_service us pm t session =
        [DaemonOp.fetchUserStyles, DaemonOp.fetchProjectMemories session.project_root,
         DaemonOp.dispatch (build_request us pm session)]) ∧
    (∀ (session : CompletedSession) (st : DaemonState),
      applyOps fs now st (send_to_service us pm t session) = st) ∧
    (∀ sessions : List CompletedSession,
      ((sessions.map (send_to_service us pm t)).flatten).countP isDispatchOp =
        (sessions.filter (fun s => !s.events.isEmpty)).length) := by
  refine ⟨?_, ?_, ?_⟩
  · intro session msg h _herr
    exact send_to_service_eq us pm t session h
  · intro session st
    cases h : session.events.isEmpty with
    | true => simp [send_to_service, h, applyOps]
    | false => rw [send_to_service_eq us pm t session h]; rfl
  · intro sessions
    induction sessions with
    | nil => rfl
    | cons s rest ih =>
      simp only [List.map_cons, List.flatten_cons, List.countP_append, ih, List.filter_cons]
      cases h : s.events.isEmpty with
      | true => simp [send_to_service, h]
      | false =>
        rw [send_to_service_eq us pm t s h]
        simp [List.countP_cons, isDispatchOp, h]
        omega

/-- Witness for C6: a concrete failing transport — the trace is exactly the
two fetches and the one dispatch. -/
theorem C6_dispatch_failure_nonfatal_witness :
    sampleSession.events.isEmpty = false ∧
    ((fun _ : ProcessEpisodeRequest =>
        (Except.error "down" : Except String ProcessEpisodeResponse))
      (build_request (Except.ok []) (fun _ => Except.ok []) sampleSession) =
        Except.error "down") ∧
    send_to_service (Except.ok []) (fun _ => Except.ok [])
        (fun _ => Except.error "down") sampleSession =
      [DaemonOp.fetchUserStyles, DaemonOp.fetchProjectMemories sampleSession.project_root,
       DaemonOp.dispatch (build_request (Except.ok []) (fun _ => Except.ok []) sampleSession)] :=
  ⟨by decide, rfl,
   (C6_dispatch_failure_nonfatal (Except.ok []) (fun _ => Except.ok [])
      (fun _ => Except.error "down") (fun _ => []) 0).1 sampleSession "down"
     (by decide) rfl⟩

/-- C9: a completed session with no events is silently discarded: in the
live watch path `send_to_service` returns before fetching anything or
dispatching, and in the historical batch path the dispatch-loop body only
counts the session and emits no action. -/
theorem C9_empty_session_never_dispatched
    (us : Except String (List ExistingUserStyle))
    (pm : String → Except String (List ExistingProjectMemory))
    (t : ProcessEpisodeRequest → Except String ProcessEpisodeResponse) :
    (∀ session : CompletedSession, session.events.isEmpty = true →
      send_to_service us pm t session = []) ∧
    (∀ (session : CompletedSession) (acc : ProcessingStats × List DaemonOp),
      session.events.isEmpty = true →
      history_flush_step t acc session =
        ({ acc.1 with sessions_found := acc.1.sessions_found + 1 }, acc.2)) := by
  constructor
  · intro session h
    simp [send_to_service, h]
  · intro session acc h
    simp [history_flush_step, h]

/-- Witness for C9: the concrete event-less session produces no action in
either path. -/
theorem C9_empty_session_never_dispatched_witness :
    emptySession.events.isEmpty = true ∧
    send_to_service (Except.ok []) (fun _ => Except.ok [])
      (fun _ => Except.error "down") emptySession = [] :=
  ⟨by decide,
   (C9_empty_session_never_dispatched (Except.ok []) (fun _ => Except.ok [])
      (fun _ => Except.error "down")).1 emptySession (by decide)⟩

theorem history_flush_fold_ops
    (t : ProcessEpisodeRequest → Except String ProcessEpisodeResponse) :
    ∀ (sessions : List CompletedSession) (acc : ProcessingStats × List DaemonOp),
      (sessions.foldl (history_flush_step t) acc).2.countP isFetchOp =
        acc.2.countP isFetchOp ∧
      ∀ op ∈ (sessions.foldl (history_flush_step t) acc).2,
        op ∈ acc.2 ∨ ∃ req, op = DaemonOp.dispatch req ∧
          req.existing_user_styles = [] ∧ req.existing_project_memories = [] := by
  intro sessions
  induction sessions with
  | nil => exact fun acc => ⟨rfl, fun op hop => Or.inl hop⟩
  | cons s rest ih =>
    intro acc
    have hstep : (history_flush_step t acc s).2.countP isFetchOp =
        acc.2.countP isFetchOp ∧
        ∀ op ∈ (history_flush_step t acc s).2,
          op ∈ acc.2 ∨ ∃ req, op = DaemonOp.dispatch req ∧
            req.existing_user_styles = [] ∧ req.existing_project_memories = [] := by
      simp only [history_flush_step]
      cases h : s.events.isEmpty with
      | true => exact ⟨rfl, fun op hop => Or.inl hop⟩
      | false =>
        simp only [Bool.false_eq_true, if_false]
        cases t { project_id := s.project_id, project_root := s.project_root,
                  events := s.events, existing_user_styles := [],
                  existing_project_memories := [] } with
        | ok r =>
          refine ⟨?_, ?_⟩
          · simp [List.countP_append, isFetchOp]
          · intro op hop
            rcases List.mem_append.mp hop with hin | hin
            · exact Or.inl hin
            · rcases List.mem_singleton.mp hin with rfl
              exact Or.inr ⟨_, rfl, rfl, rfl⟩
        | error e =>
          refine ⟨?_, ?_⟩
          · simp [List.countP_append, isFetchOp]
          · intro op hop
            rcases List.mem_append.mp hop with hin | hin
            · exact Or.inl hin
            · rcases List.mem_singleton.mp hin with rfl
              exact Or.inr ⟨_, rfl, rfl, rfl⟩
    obtain ⟨ih1, ih2⟩ := ih (history_flush_step t acc s)
    simp only [List.foldl_cons]
    exact ⟨ih1.trans hstep.1,
      fun op hop => (ih2 op hop).elim (fun hin => hstep.2 op hin) Or.inr⟩

/-- C7 (amended): in the live watch path every dispatched session's request
carries a deduplication context produced by the two read queries that very
call performs (fresh per dispatch — the dispatch loop performs exactly two
fetches per dispatched session, none shared); in the historical batch path,
by contrast, sessions are dispatched with empty context and no fetch is
performed at all. -/
theorem C7_dedup_context_fetched_per_path
    (us : Except String (List ExistingUserStyle))
    (pm : String → Except String (List ExistingProjectMemory))
    (t : ProcessEpisodeRequest → Except String ProcessEpisodeResponse) :
    (∀ session : CompletedSession, session.events.isEmpty = false →
      send_to_service us pm t session =
        [DaemonOp.fetchUserStyles, DaemonOp.fetchProjectMemories session.project_root,
         DaemonOp.dispatch (build_request us pm session)] ∧
      (build_request us pm session).existing_user_styles =
        fetch_existing_user_styles us ∧
      (build_request us pm session).existing_project_memories =
        fetch_existing_project_memories (pm session.project_root)) ∧
    (∀ sessions : List CompletedSession,
      ((sessions.map (send_to_service us pm t)).flatten).countP isFetchOp =
        2 * (sessions.filter (fun s => !s.events.isEmpty)).length) ∧
    (∀ (tracker : SessionTracker) (stats : ProcessingStats),
      (process_history_flush t tracker stats).2.countP isFetchOp = 0 ∧
      ∀ req, DaemonOp.dispatch req ∈ (process_history_flush t tracker stats).2 →
        req.existing_user_styles = [] ∧ req.existing_project_memories = []) := by
  refine ⟨?_, ?_, ?_⟩
  · intro session h
    exact ⟨send_to_service_eq us pm t session h, rfl, rfl⟩
  · intro sessions
    induction sessions with
    | nil => rfl
    | cons s rest ih =>
      simp only [List.map_cons, List.flatten_cons, List.countP_append, ih, List.filter_cons]
      cases h : s.events.isEmpty with
      | true => simp [send_to_service, h]
      | false =>
        rw [send_to_service_eq us pm t s h]
        simp only [List.countP_cons, List.countP_nil, h, Bool.not_false, if_true]
        simp [isFetchOp, List.length_cons]
        ring
  · intro tracker stats
    obtain ⟨h1, h2⟩ := history_flush_fold_ops t (flush_all tracker).2 (stats, [])
    refine ⟨h1, ?_⟩
    intro req hreq
    rcases h2 _ hreq with hin | ⟨req2, heq, hu, hp⟩
    · cases hin
    · obtain rfl : req = req2 := by injection heq
      exact ⟨hu, hp⟩

/-- Witness for C7 (amended): a concrete non-empty session dispatched in the
live path with a non-empty storage snapshot carried in the request. -/
theorem C7_dedup_context_fetched_per_path_witness :
    sampleSession.events.isEmpty = false ∧
    (send_to_service (Except.ok [{ id := "u1", text := "likes tests" }])
        (fun _ => Except.ok []) (fun _ => Except.error "down") sampleSession =
      [DaemonOp.fetchUserStyles, DaemonOp.fetchProjectMemories sampleSession.project_root,
       DaemonOp.dispatch (build_request (Except.ok [{ id := "u1", text := "likes tests" }])
         (fun _ => Except.ok []) sampleSession)] ∧
     (build_request (Except.ok [{ id := "u1", text := "likes tests" }])
        (fun _ => Except.ok []) sampleSession).existing_user_styles =
       fetch_existing_user_styles (Except.ok [{ id := "u1", text := "likes tests" }]) ∧
     (build_request (Except.ok [{ id := "u1", text := "likes tests" }])
        (fun _ => Except.ok []) sampleSession).existing_project_memories =
       fetch_existing_project_memories
         ((fun _ => Except.ok []) sampleSession.project_root)) :=
  ⟨by decide,
   (C7_dedup_context_fetched_per_path (Except.ok [{ id := "u1", text := "likes tests" }])
      (fun _ => Except.ok []) (fun _ => Except.error "down")).1 sampleSession (by decide)⟩

/-- Counterexample to C7 as stated: in the historical batch path
(`process_history`) a completed session is dispatched with **zero** read
queries against storage and an empty deduplication context in the request —
the context is not fetched at dispatch time there. -/
theorem C7_counterexample_history_dispatch_without_fetch :
    (process_history_flush (fun _ => Except.ok okResponse)
        [(("p", "s"),
          { events := [sampleEntry], projectRoot := "r",
            lastActivity := 0, createdAt := 0 })]
        zeroStats).2 =
      [DaemonOp.dispatch
        { project_id := "p", project_root := "r", events := [sampleEntry],
          existing_user_styles := [], existing_project_memories := [] }] ∧
    (process_history_flush (fun _ => Except.ok okResponse)
        [(("p", "s"),
          { events := [sampleEntry], projectRoot := "r",
            lastActivity := 0, createdAt := 0 })]
        zeroStats).2.countP isFetchOp = 0 :=
  ⟨by decide, by decide⟩

/-- C5 (amended): the main loop of `run_daemon` has no shutdown branch: a
delivered shutdown signal changes neither the final state nor the emitted
actions — so a clean stop triggers no flush of the remaining open sessions
and no final checkpoint save beyond what periodic idle-check ticks already
did; sessions still open when the process dies are lost. -/
theorem C5_shutdown_signal_ignored (env : Env) (inputs : List TickInput)
    (st : LoopState) :
    run_daemon env inputs st =
      run_daemon env (inputs.map (fun i =>
        { events := i.events, now := i.now, shutdownSignal := false })) st := by
  unfold run_daemon
  generalize (st, ([] : List DaemonOp)) = acc
  induction inputs generalizing acc with
  | nil => rfl
  | cons i rest ih =>
    simp only [List.map_cons, List.foldl_cons]
    exact ih _

/-- A run in which the daemon opens one session from a log file and then a
shutdown signal is delivered. -/
def shutdownSchedule : List TickInput :=
  [{ events := [WatchEvent.modified "f"], now := 0, shutdownSignal := false },
   { events := [], now := 1, shutdownSignal := true }]

/-- The environment of that run: one parseable log line, a reachable-or-not
transport (never consulted), and an empty storage. -/
def shutdownEnv : Env :=
  { parseLine := fun l =>
      some { timestamp := 0, sessionId := "s", projectPath := "p", payload := l }
    fs := fun _ => ['a', nlChar]
    userStylesRes := Except.ok []
    projectMemoriesRes := fun _ => Except.ok []
    transport := fun _ => Except.error "down"
    idleThreshold := 5 }

/-- Counterexample to C5 as stated: a shutdown signal is delivered while a
session is open, yet the run performs no dispatch at all, never saves the
cursor store, and the open session is still in the in-flight table when the
process dies — nothing is flushed on shutdown. -/
theorem C5_counterexample_no_flush_on_shutdown :
    (shutdownSchedule.map TickInput.shutdownSignal).contains true = true ∧
    (run_daemon shutdownEnv shutdownSchedule
        { pipeline := { position_store := [], session_tracker := [] },
          last_idle_check := 0 }).1.pipeline.session_tracker ≠ [] ∧
    (run_daemon shutdownEnv shutdownSchedule
        { pipeline := { position_store := [], session_tracker := [] },
          last_idle_check := 0 }).2.countP isDispatchOp = 0 ∧
    ((run_daemon shutdownEnv shutdownSchedule
        { pipeline := { position_store := [], session_tracker := [] },
          last_idle_check := 0 }).2.all (fun op =>
      match op with
      | DaemonOp.savePositions _ => false
      | _ => true)) = true :=
  ⟨by decide, by decide, by decide, by decide⟩

/-! ## At-most-once completion (spec §4.4) and the log directory name -/

theorem findSession_eq_none {tr : SessionTracker} {k : String × String} :
    tr.findSession k = none ↔ ∀ kv ∈ tr, kv.1 ≠ k := by
  simp [SessionTracker.findSession, List.find?_eq_none]

theorem findSession_append_self (tr : SessionTracker) (k : String × String)
    (s : Session) (h : tr.findSession k = none) :
    SessionTracker.findSession (tr ++ [(k, s)]) k = some s := by
  have h0 : tr.find? (fun kv => decide (kv.1 = k)) = none := by
    rw [List.find?_eq_none]
    intro kv hkv
    simpa using findSession_eq_none.mp h kv hkv
  simp [SessionTracker.findSession, List.find?_append, h0, List.find?]

/-- C2: a session instance is completed at most once per run: every session
returned by the idle sweep is removed from the in-flight table; an entry with
the same key arriving afterwards starts a fresh session holding exactly that
one entry, rather than reopening or mutating the completed one; and both
operations preserve the table's no-duplicate-keys invariant, so the
hypothesis is invariant. -/
theorem C2_at_most_once_completion
    (tr : SessionTracker) (now threshold : Nat)
    (hnodup : (trackerKeys tr).Nodup) :
    (∀ c ∈ (check_idle_sessions tr now threshold).2,
      (check_idle_sessions tr now threshold).1.findSession
        (c.project_id, c.session_id) = none) ∧
    (∀ c ∈ (check_idle_sessions tr now threshold).2, ∀ (e : LogEntry) (now2 : Nat),
      entryKey e = (c.project_id, c.session_id) →
      (process_entry (check_idle_sessions tr now threshold).1 now2 e).findSession
          (entryKey e) =
        some { events := [e], projectRoot := e.projectPath,
               lastActivity := now2, createdAt := now2 }) ∧
    (trackerKeys (check_idle_sessions tr now threshold).1).Nodup ∧
    (∀ (e : LogEntry) (now2 : Nat), (trackerKeys (process_entry tr now2 e)).Nodup) := by
  simp only [trackerKeys] at hnodup
  have removed : ∀ c ∈ (check_idle_sessions tr now threshold).2,
      (check_idle_sessions tr now threshold).1.findSession
        (c.project_id, c.session_id) = none := by
    intro c hc
    simp only [check_idle_sessions] at hc
    obtain ⟨kv, hkv, rfl⟩ := List.mem_map.mp hc
    refine findSession_eq_none.mpr ?_
    intro kv' hkv' heq
    have hkey : ((toCompletedSession kv).project_id,
        (toCompletedSession kv).session_id) = kv.1 := Prod.mk.eta
    rw [hkey] at heq
    have hkv'mem : kv' ∈ tr := List.mem_of_mem_filter hkv'
    have hkvmem : kv ∈ tr := List.mem_of_mem_filter hkv
    have hkveq : kv' = kv := List.inj_on_of_nodup_map hnodup hkv'mem hkvmem heq
    subst hkveq
    have h1 := List.of_mem_filter hkv
    have h2 := List.of_mem_filter hkv'
    rw [h1] at h2
    cases h2
  refine ⟨removed, ?_, ?_, ?_⟩
  · intro c hc e now2 hkey
    have hnone : (check_idle_sessions tr now threshold).1.findSession
        (entryKey e) = none := by
      rw [hkey]
      exact removed c hc
    simp only [process_entry, hnone]
    exact findSession_append_self _ _ _ hnone
  · simp only [check_idle_sessions]
    exact List.Nodup.sublist (List.Sublist.map _ (List.filter_sublist tr)) hnodup
  · intro e now2
    simp only [process_entry]
    cases hf : tr.findSession (entryKey e) with
    | some s =>
      simp only [trackerKeys, List.map_map]
      have hcomp : ((fun kv : (String × String) × Session => kv.1) ∘
          (fun kv : (String × String) × Session =>
            if kv.1 = entryKey e
            then (kv.1, { s with events := s.events ++ [e], lastActivity := now2 })
            else kv)) = fun kv => kv.1 := by
        funext kv
        by_cases hk : kv.1 = entryKey e <;> simp [hk]
      rw [hcomp]
      exact hnodup
    | none =>
      simp only [trackerKeys, List.map_append]
      rw [List.nodup_append]
      refine ⟨hnodup, List.nodup_singleton _, ?_⟩
      intro k hk1 hk2
      simp only [List.map_cons, List.map_nil, List.mem_singleton] at hk2
      subst hk2
      obtain ⟨kv, hkv, hkveq⟩ := List.mem_map.mp hk1
      exact findSession_eq_none.mp hf kv hkv hkveq

/-- Witness for C2: one idle session is swept; an entry with the same key
arriving afterwards yields a fresh one-entry session. -/
theorem C2_at_most_once_completion_witness :
    (trackerKeys [(("p", "s"),
      { events := [sampleEntry], projectRoot := "r",
        lastActivity := 0, createdAt := 0 })]).Nodup ∧
    (process_entry (check_idle_sessions [(("p", "s"),
        { events := [sampleEntry], projectRoot := "r",
          lastActivity := 0, createdAt := 0 })] 100 10).1 5 sampleEntry).findSession
        (entryKey sampleEntry) =
      some { events := [sampleEntry], projectRoot := sampleEntry.projectPath,
             lastActivity := 5, createdAt := 5 } :=
  ⟨by decide,
   (C2_at_most_once_completion [(("p", "s"),
      { events := [sampleEntry], projectRoot := "r",
        lastActivity := 0, createdAt := 0 })] 100 10 (by decide)).2.1
     sampleSession (by decide) sampleEntry 5 (by decide)⟩

/-- From `history.rs` `project_path_to_claude_dir`: convert a project path
to Claude's per-project log directory name — the path with each slash
(forward or back) replaced by a dash.  Rust strings are modelled as
`List Char`; a single-character `str::replace` is a character map. -/
def project_path_to_claude_dir (project_path : List Char) : List Char :=
  (project_path.map (fun c => if c = '/' then '-' else c)).map
    (fun c => if c = '\\' then '-' else c)

/-- From `history.rs` `find_log_files`: the directory searched for a
project's logs is the Claude projects directory joined with the transformed
name (`claude_dir.join(&project_dir_name)`). -/
def project_logs_dir (claude_dir project_path : List Char) : List Char :=
  claude_dir ++ '/' :: project_path_to_claude_dir project_path

/-- C8: the per-project log directory name is the deterministic transform
replacing each slash of the project path by the reserved separator `-`
(leaving every other character unchanged), `/home/user/projects/myapp` maps
to `-home-user-projects-myapp`, and `find_log_files` locates the project's
logs under exactly this transformed name. -/
theorem C8_project_dir_name_transform (project_path claude_dir : List Char) :
    project_path_to_claude_dir project_path =
      project_path.map (fun c => if c = '/' ∨ c = '\\' then '-' else c) ∧
    project_path_to_claude_dir "/home/user/projects/myapp".toList =
      "-home-user-projects-myapp".toList ∧
    project_logs_dir claude_dir project_path =
      claude_dir ++ '/' :: project_path_to_claude_dir project_path := by
  refine ⟨?_, by decide, rfl⟩
  rw [project_path_to_claude_dir, List.map_map]
  apply List.map_congr_left
  intro c _
  simp only [Function.comp_apply]
  by_cases h1 : c = '/'
  · subst h1; decide
  · by_cases h2 : c = '\\'
    · subst h2; decide
    · simp [h1, h2]

end Squirrel
